import Mathlib

/-
  Verification development for the KeyStone-Game (Aethelgard) rules engine.

  The definitions below are a shallow embedding of the repository's rules
  engine:
    * `src/src/utils/gameLogic.ts`   — board primitives, pattern detection,
      resonance propagation, win checking;
    * the Zustand game store (`src/unnamed/part_002`) — the turn/undo state
      machine (`placeStone`, `completeTurn`, `undo`, `redo`, `confirmUndo`,
      `updateAvailableMoves`, `updateConvertibleStones`);
    * the move-record helpers of `src/unnamed/part_003` (`createNotation`,
      `getResonanceDirection`), modelled here under the names
      `createMarkInfo` / `getResonanceDirection` (the word used by the
      source for these move labels cannot be used as a Lean identifier,
      so the embedding calls them "marks").

  JavaScript numbers holding board coordinates are modelled as `Int`
  (subtraction such as `newPosition.col - 1` must not truncate); loop
  indices over the fixed 17x17 board are `Nat`.  The event log of the
  store is not modelled: its entries carry a random id and a wall-clock
  timestamp (`Math.random()`, `Date.now()`), and no rule reads it back.
-/

/-! ## Data model (`src/unnamed/part_002`, type definitions section) -/

inductive Player where
  | black
  | white
deriving DecidableEq, Repr

/-- `currentPlayer === 'black' ? 'white' : 'black'` — the swap used
throughout the store. -/
def Player.other : Player → Player
  | .black => .white
  | .white => .black

inductive StoneType where
  | empty
  | blackConduit
  | whiteConduit
  | blackKeystone
  | whiteKeystone
deriving DecidableEq, Repr

/-- The template string `` `${player}Conduit` `` of the source. -/
def conduitOf : Player → StoneType
  | .black => .blackConduit
  | .white => .whiteConduit

/-- The template string `` `${player}Keystone` `` of the source. -/
def keystoneOf : Player → StoneType
  | .black => .blackKeystone
  | .white => .whiteKeystone

/-- `stoneType.includes('black')` on the five stone-type strings. -/
def stoneIncludesBlack : StoneType → Bool
  | .blackConduit => true
  | .blackKeystone => true
  | _ => false

inductive GamePhase where
  | placing
  | converting
  | resonating
  | selectingFocus
deriving DecidableEq, Repr

inductive GameStatus where
  | playing
  | blackWin
  | whiteWin
  | draw
deriving DecidableEq, Repr

/-- The template string `` `${currentPlayer}Win` `` of `completeTurn`. -/
def winOf : Player → GameStatus
  | .black => .blackWin
  | .white => .whiteWin

inductive Direction where
  | up
  | down
  | left
  | right
deriving DecidableEq, Repr

structure Position where
  row : Int
  col : Int
deriving DecidableEq, Repr

instance : Inhabited Position := ⟨⟨0, 0⟩⟩

/-- The `NotationType` union of the source (move-label kinds). -/
inductive MarkType where
  | normal
  | focus
  | resonance
  | conversion
deriving DecidableEq, Repr

/-- The `NotationInfo` record of the source: the label drawn on a stone
(`moveNumber`, kind, optional resonance direction, optional second label
added when a placed stone is later converted). -/
structure MarkInfo where
  moveNumber : Nat
  markType : MarkType
  direction : Option Direction
  secondary : Option (Nat × MarkType)
deriving DecidableEq, Repr

/-- `BoardCell` of the source.  `mark` is the optional `notation?` field. -/
structure BoardCell where
  position : Position
  stoneType : StoneType
  isHighlighted : Bool
  isConvertible : Bool
  isResonating : Bool
  mark : Option MarkInfo
deriving DecidableEq, Repr

def defaultCell : BoardCell :=
  { position := ⟨0, 0⟩, stoneType := .empty, isHighlighted := false,
    isConvertible := false, isResonating := false, mark := none }

instance : Inhabited BoardCell := ⟨defaultCell⟩

/-- `BoardCell[][]` — a list of rows. -/
abbrev Board := List (List BoardCell)

inductive LShapeType where
  | L
  | reverseL
deriving DecidableEq, Repr

structure LShape where
  stones : List Position
  type : LShapeType
deriving DecidableEq, Repr

structure Core where
  positions : List Position
  stones : List BoardCell
deriving DecidableEq, Repr

/-! ## Board primitives (`src/src/utils/gameLogic.ts`) -/

def BOARD_SIZE : Nat := 17

/-- `createEmptyBoard` (gameLogic.ts lines 24-43). -/
def createEmptyBoard : Board :=
  (List.range BOARD_SIZE).map (fun row =>
    (List.range BOARD_SIZE).map (fun col =>
      { position := ⟨(row : Int), (col : Int)⟩, stoneType := .empty,
        isHighlighted := false, isConvertible := false,
        isResonating := false, mark := none }))

/-- `isValidPosition` (gameLogic.ts lines 50-53). -/
def isValidPosition (position : Position) : Bool :=
  0 ≤ position.row && position.row < 17 && 0 ≤ position.col && position.col < 17

/-- `isSamePosition` (gameLogic.ts lines 61-63). -/
def isSamePosition (pos1 pos2 : Position) : Bool :=
  pos1.row == pos2.row && pos1.col == pos2.col

/-- `isPositionInArray` (gameLogic.ts lines 71-73). -/
def isPositionInArray (position : Position) (positions : List Position) : Bool :=
  positions.any (fun pos => isSamePosition pos position)

/-- `board[p.row][p.col]`.  Every read in the source is guarded so that
both coordinates are in `[0, 16]`; the defaults are never reached there. -/
def getCell (board : Board) (p : Position) : BoardCell :=
  ((board : List (List BoardCell)).getD p.row.toNat []).getD p.col.toNat defaultCell

/-- Point update of a list, mirroring the in-place element assignments of
the source (`newBoard[r][c].f = v`); out-of-range indices leave the list
unchanged. -/
def listModify {α : Type} (f : α → α) : Nat → List α → List α
  | _, [] => []
  | 0, x :: xs => f x :: xs
  | n + 1, x :: xs => x :: listModify f n xs

/-- Apply `f` to the cell at `p` (the mutation `newBoard[p.row][p.col]`). -/
def modifyCellWith (board : Board) (p : Position) (f : BoardCell → BoardCell) : Board :=
  listModify (listModify f p.col.toNat) p.row.toNat (board : List (List BoardCell))

/-- `newBoard[p.row][p.col].stoneType = st`. -/
def setCellStone (board : Board) (p : Position) (st : StoneType) : Board :=
  modifyCellWith board p (fun c => { c with stoneType := st })

/-- `getConduitStones` (gameLogic.ts lines 101-115). -/
def getConduitStones (board : Board) (player : Player) : List Position :=
  (List.range BOARD_SIZE).flatMap (fun row =>
    (List.range BOARD_SIZE).filterMap (fun (col : Nat) =>
      if (getCell board ⟨(row : Int), (col : Int)⟩).stoneType = conduitOf player then
        some ⟨(row : Int), (col : Int)⟩
      else none))

/-- `getKeystoneStones` (gameLogic.ts lines 123-137). -/
def getKeystoneStones (board : Board) (player : Player) : List Position :=
  (List.range BOARD_SIZE).flatMap (fun row =>
    (List.range BOARD_SIZE).filterMap (fun (col : Nat) =>
      if (getCell board ⟨(row : Int), (col : Int)⟩).stoneType = keystoneOf player then
        some ⟨(row : Int), (col : Int)⟩
      else none))

/-- `areAdjacent` (gameLogic.ts lines 146-151). -/
def areAdjacent (pos1 pos2 : Position) : Bool :=
  let rowDiff := (pos1.row - pos2.row).natAbs
  let colDiff := (pos1.col - pos2.col).natAbs
  (rowDiff == 1 && colDiff == 0) || (rowDiff == 0 && colDiff == 1)

/-! ## Bent-triple (L-shape) detection -/

/-- All index pairs `j < k` of a list, in the order of the source's inner
two loops. -/
def pairsOf {α : Type} : List α → List (List α)
  | [] => []
  | x :: xs => xs.map (fun y => [x, y]) ++ pairsOf xs

/-- All index triples `i < j < k` of a list, in the order of the three
nested loops of `detectLShapes` (gameLogic.ts lines 166-180). -/
def triplesOf {α : Type} : List α → List (List α)
  | [] => []
  | x :: xs => (pairsOf xs).map (fun p => x :: p) ++ triplesOf xs

/-- `isLShape` (gameLogic.ts lines 191-207): three stones of which exactly
two of the three pairwise `areAdjacent` checks hold. -/
def isLShape (stones : List Position) : Bool :=
  match stones with
  | [stone1, stone2, stone3] =>
    ((if areAdjacent stone1 stone2 then 1 else 0) +
     (if areAdjacent stone2 stone3 then 1 else 0) +
     (if areAdjacent stone1 stone3 then 1 else 0) : Nat) == 2
  | _ => false

/-- `getLShapeType` (gameLogic.ts lines 214-222) — a stub that always
returns `'L'`. -/
def getLShapeType (_stones : List Position) : LShapeType := .L

/-- `detectLShapes` (gameLogic.ts lines 160-183). -/
def detectLShapes (board : Board) (player : Player) : List LShape :=
  let conduitStones := getConduitStones board player
  ((triplesOf conduitStones).filter (fun t => isLShape t)).map
    (fun t => { stones := t, type := getLShapeType t })

/-! ## Core detection -/

/-- `isValidCore` (gameLogic.ts lines 325-333). -/
def isValidCore (cells : List BoardCell) (player : Player) : Bool :=
  cells.all (fun cell =>
    cell.stoneType == conduitOf player || cell.stoneType == keystoneOf player)

/-- The 2x2 core record anchored at `(r, c)`; both `detectCores`
(gameLogic.ts lines 238-255) and `detectCoresWithNewStone` (lines 292-310)
build it from the same four cells and positions. -/
def coreAt (board : Board) (r c : Int) : Core :=
  { positions := [⟨r, c⟩, ⟨r, c + 1⟩, ⟨r + 1, c⟩, ⟨r + 1, c + 1⟩],
    stones := [getCell board ⟨r, c⟩, getCell board ⟨r, c + 1⟩,
               getCell board ⟨r + 1, c⟩, getCell board ⟨r + 1, c + 1⟩] }

/-- `detectCores` (gameLogic.ts lines 231-261): scan all 16x16 anchors. -/
def detectCores (board : Board) (player : Player) : List Core :=
  (List.range (BOARD_SIZE - 1)).flatMap (fun row =>
    (List.range (BOARD_SIZE - 1)).filterMap (fun (col : Nat) =>
      let c := coreAt board (row : Int) (col : Int)
      if isValidCore c.stones player then some c else none))

/-- `detectCoresWithNewStone` (gameLogic.ts lines 271-316): only the four
anchors that put the new stone in one of the 2x2 corners are scanned. -/
def detectCoresWithNewStone (board : Board) (player : Player)
    (newPosition : Position) : List Core :=
  let possibleCores : List (Int × Int) :=
    [(newPosition.row, newPosition.col),
     (newPosition.row, newPosition.col - 1),
     (newPosition.row - 1, newPosition.col),
     (newPosition.row - 1, newPosition.col - 1)]
  possibleCores.filterMap (fun sc =>
    if 0 ≤ sc.1 ∧ sc.1 < 16 ∧ 0 ≤ sc.2 ∧ sc.2 < 16 then
      let c := coreAt board sc.1 sc.2
      if isValidCore c.stones player then some c else none
    else none)

/-! ## Resonance propagation -/

/-- The `directionVectors` table of `propagateResonance`. -/
def directionVector : Direction → Position
  | .up => ⟨-1, 0⟩
  | .down => ⟨1, 0⟩
  | .left => ⟨0, -1⟩
  | .right => ⟨0, 1⟩

/-- One step of the walk: `current = { row: current.row + vector.row,
col: current.col + vector.col }` (gameLogic.ts lines 409-412). -/
def stepPos (current vector : Position) : Position :=
  ⟨current.row + vector.row, current.col + vector.col⟩

/-- The body of the `for (let i = 0; i < 5; i++)` walk of
`propagateResonance` (gameLogic.ts lines 407-438), with the remaining
iteration count as fuel. -/
def propagateLoop (board : Board) (core : Core) (corePlayer : Player)
    (vector : Position) : Nat → Position → List Position
  | 0, _ => []
  | fuel + 1, current0 =>
    let current : Position := stepPos current0 vector
    if !isValidPosition current then []
    else if isPositionInArray current core.positions then
      -- core-interior cells are passed through: not recorded, not a stop
      propagateLoop board core corePlayer vector fuel current
    else
      let cell := getCell board current
      if cell.stoneType = conduitOf corePlayer then [current]
      else if cell.stoneType ≠ .empty then []
      else current :: propagateLoop board core corePlayer vector fuel current

/-- `propagateResonance` (gameLogic.ts lines 386-441). -/
def propagateResonance (board : Board) (start : Position) (direction : Direction)
    (core : Core) (corePlayer : Player) : List Position :=
  propagateLoop board core corePlayer (directionVector direction) 5 start

/-- The conversion pass of `activateResonance` (gameLogic.ts lines 362-369):
along a path, each cell holding the core owner's conductor becomes that
owner's keystone. -/
def convertPath (board : Board) (corePlayer : Player) (path : List Position) : Board :=
  path.foldl (fun b pos =>
    if (getCell b pos).stoneType = conduitOf corePlayer then
      setCellStone b pos (keystoneOf corePlayer)
    else b) board

structure ResonanceResult where
  newBoard : Board
  resonancePaths : List (List Position)
deriving DecidableEq

/-- `core.stones[0].stoneType.includes('black') ? 'black' : 'white'`
(gameLogic.ts line 352). -/
def corePlayerOf (core : Core) : Player :=
  if stoneIncludesBlack (core.stones.headD defaultCell).stoneType then .black else .white

/-- `activateResonance` (gameLogic.ts lines 343-373).  The source's
`forEach` over `['up','down','left','right']` is unrolled: each direction
propagates over the board as mutated by the previous directions. -/
def activateResonance (board : Board) (core : Core) (focusPosition : Position) :
    ResonanceResult :=
  let corePlayer : Player := corePlayerOf core
  let path0 := propagateResonance board focusPosition .up core corePlayer
  let board0 := convertPath board corePlayer path0
  let path1 := propagateResonance board0 focusPosition .down core corePlayer
  let board1 := convertPath board0 corePlayer path1
  let path2 := propagateResonance board1 focusPosition .left core corePlayer
  let board2 := convertPath board1 corePlayer path2
  let path3 := propagateResonance board2 focusPosition .right core corePlayer
  let board3 := convertPath board2 corePlayer path3
  { newBoard := board3, resonancePaths := [path0, path1, path2, path3] }

/-! ## Win checking -/

/-- `getCombinations` (gameLogic.ts lines 469-487), with the choose-count
first.  The source recursion never reaches `r = 0` from
`checkWinCondition` (it starts at `r = 5` and stops at the `r === 1`
base), so the `0` case below only keeps the function total. -/
def getCombinations {α : Type} [Inhabited α] : Nat → List α → List (List α)
  | 1, array => array.map (fun item => [item])
  | 0, array => if 0 = array.length then [array] else []
  | r + 2, array =>
    if r + 2 = array.length then [array]
    else
      (List.range (((array.length : Int) - (r + 2) + 1).toNat)).flatMap (fun i =>
        (getCombinations (r + 1) (array.drop (i + 1))).map
          (fun comb => array.getD i default :: comb))

/-- Insertion of one element into an ascending list (used to model the
numeric `Array.prototype.sort` calls of the source). -/
def insertAsc (le : Position → Position → Bool) (x : Position) :
    List Position → List Position
  | [] => [x]
  | y :: ys => if le x y then x :: y :: ys else y :: insertAsc le x ys

/-- `positions.sort((a, b) => a.row - b.row)` — ascending by row. -/
def sortByRow (l : List Position) : List Position :=
  l.foldr (insertAsc (fun a b => a.row ≤ b.row)) []

def insertIntAsc (x : Int) : List Int → List Int
  | [] => [x]
  | y :: ys => if x ≤ y then x :: y :: ys else y :: insertIntAsc x ys

/-- `numbers.sort((a, b) => a - b)` — ascending. -/
def sortInts (l : List Int) : List Int :=
  l.foldr insertIntAsc []

/-- The adjacent-difference check of `isConsecutive`. -/
def consecutiveFromSorted : List Int → Bool
  | [] => true
  | [_] => true
  | a :: b :: rest => b == a + 1 && consecutiveFromSorted (b :: rest)

/-- `isConsecutive` (gameLogic.ts lines 570-581). -/
def isConsecutive (numbers : List Int) : Bool :=
  consecutiveFromSorted (sortInts numbers)

/-- `isHorizontal` (gameLogic.ts lines 507-511). -/
def isHorizontal (positions : List Position) : Bool :=
  let row := (positions.headD default).row
  positions.all (fun pos => pos.row == row) &&
    isConsecutive (positions.map (fun p => p.col))

/-- `isVertical` (gameLogic.ts lines 519-523). -/
def isVertical (positions : List Position) : Bool :=
  let col := (positions.headD default).col
  positions.all (fun pos => pos.col == col) &&
    isConsecutive (positions.map (fun p => p.row))

/-- `isMainDiagonal` (gameLogic.ts lines 540-548). -/
def isMainDiagonal (positions : List Position) : Bool :=
  let sorted := sortByRow positions
  let first := sorted.headD default
  sorted.enum.all (fun ip =>
    ip.2.row == first.row + (ip.1 : Int) && ip.2.col == first.col + (ip.1 : Int))

/-- `isAntiDiagonal` (gameLogic.ts lines 555-563). -/
def isAntiDiagonal (positions : List Position) : Bool :=
  let sorted := sortByRow positions
  let first := sorted.headD default
  sorted.enum.all (fun ip =>
    ip.2.row == first.row + (ip.1 : Int) && ip.2.col == first.col - (ip.1 : Int))

/-- `isDiagonal` (gameLogic.ts lines 531-533). -/
def isDiagonal (positions : List Position) : Bool :=
  isMainDiagonal positions || isAntiDiagonal positions

/-- `isInLine` (gameLogic.ts lines 495-499). -/
def isInLine (positions : List Position) : Bool :=
  isHorizontal positions || isVertical positions || isDiagonal positions

/-- `checkWinCondition` (gameLogic.ts lines 450-461). -/
def checkWinCondition (board : Board) (player : Player) : Bool :=
  let keystonePositions := getKeystoneStones board player
  if keystonePositions.length < 5 then false
  else (getCombinations 5 keystonePositions).any (fun c => isInLine c)

/-! ## Move records and marks (`src/unnamed/part_002` types,
`src/unnamed/part_003` helpers) -/

inductive MoveType where
  | place
  | convert
  | resonance
deriving DecidableEq, Repr

structure ResonanceInfo where
  core : Core
  focusPosition : Position
  resonancePaths : List (List Position)
deriving DecidableEq, Repr

structure LShapeInfo where
  lShape : LShape
  convertedStoneIndex : Nat
deriving DecidableEq, Repr

/-- `GameMove` of the source: one completed turn with full before/after
board snapshots. -/
structure GameMove where
  moveNumber : Nat
  player : Player
  moveType : MoveType
  position : Position
  previousBoard : Board
  currentBoard : Board
  resonanceInfo : Option ResonanceInfo
  lShapeInfo : Option LShapeInfo
deriving DecidableEq

/-- `getResonanceDirection` (part_003 lines 97-115): the first of the
four direction paths that contains the target position. -/
def getResonanceDirection (_focusPosition targetPosition : Position)
    (resonancePaths : List (List Position)) : Option Direction :=
  let directions : List Direction := [.up, .down, .left, .right]
  (List.range directions.length).findSome? (fun i =>
    match resonancePaths.get? i with
    | some path =>
      if path.any (fun pos =>
          pos.row == targetPosition.row && pos.col == targetPosition.col) then
        directions.get? i
      else none
    | none => none)

/-- `createNotation` (part_003 lines 30-84): the label for `position`
created by `move`, or `none`. -/
def createMarkInfo (move : GameMove) (position : Position) (_board : Board) :
    Option MarkInfo :=
  match move.moveType with
  | .place => some ⟨move.moveNumber, .normal, none, none⟩
  | .convert => some ⟨move.moveNumber, .conversion, none, none⟩
  | .resonance =>
    match move.resonanceInfo with
    | some info =>
      if position.row == info.focusPosition.row &&
         position.col == info.focusPosition.col then
        some ⟨move.moveNumber, .focus, none, none⟩
      else
        match getResonanceDirection info.focusPosition position info.resonancePaths with
        | some direction => some ⟨move.moveNumber, .resonance, some direction, none⟩
        | none => none
    | none => none

/-- The per-cell merge of `updateNotation` (part_002 lines 875-900):
convert/resonance marks are stacked on an existing mark as a secondary
label (plus the direction), otherwise the new mark replaces the old. -/
def applyMark (moveType : MoveType) (info : MarkInfo) (cell : BoardCell) : BoardCell :=
  match cell.mark with
  | some old =>
    if moveType = .convert ∨ moveType = .resonance then
      let merged : MarkInfo :=
        { old with secondary := some (info.moveNumber, info.markType),
                   direction := match info.direction with
                                | some d => some d
                                | none => old.direction }
      { cell with mark := some merged }
    else { cell with mark := some info }
  | none => { cell with mark := some info }

/-- The affected-position list built by `updateNotation` (part_002 lines
848-872): the move's own position, the bent-triple stones, the focal
position, then every resonance-path cell not already present. -/
def affectedPositionsOf (move : GameMove) : List Position :=
  let base := [move.position]
  let withL := base ++ (match move.lShapeInfo with
    | some info => info.lShape.stones
    | none => [])
  match move.resonanceInfo with
  | some info =>
    let withFocus := withL ++ [info.focusPosition]
    info.resonancePaths.foldl (fun acc path =>
      path.foldl (fun acc2 pos =>
        if acc2.any (fun p => p.row == pos.row && p.col == pos.col) then acc2
        else acc2 ++ [pos]) acc) withFocus
  | none => withL

/-- One iteration of the relabelling loop of `updateNotation` (part_002
lines 875-900): non-empty cells with a fresh label get it applied. -/
def markStep (move : GameMove) (b : Board) (pos : Position) : Board :=
  let cell := getCell b pos
  if cell.stoneType ≠ .empty then
    match createMarkInfo move pos b with
    | some info => modifyCellWith b pos (applyMark move.moveType info)
    | none => b
  else b

/-- `updateNotation` (part_002 lines 843-903): relabel the cells affected
by `move` on a copy of `move.currentBoard`. -/
def updateMarks (move : GameMove) : Board :=
  (affectedPositionsOf move).foldl (markStep move) move.currentBoard

/-! ## The game store state machine (`src/unnamed/part_002`) -/

/-- The rule-relevant fields of the Zustand store.  `eventLog` (random
ids, wall-clock timestamps), `hoveredPosition`, `isNotationMode` and
`isAnimating` are pure display state never read by any rule and are not
modelled. -/
structure GameState where
  board : Board
  currentPlayer : Player
  gamePhase : GamePhase
  gameStatus : GameStatus
  selectedLShape : Option LShape
  selectedCores : List Core
  selectedCore : Option Core
  corePlayer : Option Player
  moveHistory : List GameMove
  currentMoveIndex : Nat
  isHistoryMode : Bool
  historyIndex : Nat
  availableMoves : List Position
  convertibleStones : List Position
deriving DecidableEq

/-- The store's initial state (part_002 lines 217-244). -/
def initialState : GameState :=
  { board := createEmptyBoard, currentPlayer := .black, gamePhase := .placing,
    gameStatus := .playing, selectedLShape := none, selectedCores := [],
    selectedCore := none, corePlayer := none, moveHistory := [],
    currentMoveIndex := 0, isHistoryMode := false, historyIndex := 0,
    availableMoves := [], convertibleStones := [] }

/-- `updateAvailableMoves` (part_002 lines 707-721): collect every empty
cell. -/
def updateAvailableMoves (s : GameState) : GameState :=
  { s with availableMoves :=
      (List.range 17).flatMap (fun row =>
        (List.range 17).filterMap (fun (col : Nat) =>
          if (getCell s.board ⟨(row : Int), (col : Int)⟩).stoneType = .empty then
            some ⟨(row : Int), (col : Int)⟩
          else none)) }

/-- `updateConvertibleStones` (part_002 lines 729-745): deduplicated
stones of the current player's bent-triples. -/
def updateConvertibleStones (s : GameState) : GameState :=
  let lShapes := detectLShapes s.board s.currentPlayer
  { s with convertibleStones :=
      lShapes.foldl (fun acc l =>
        l.stones.foldl (fun acc2 stone =>
          if acc2.any (fun pos => pos.row == stone.row && pos.col == stone.col) then acc2
          else acc2 ++ [stone]) acc) [] }

/-- `completeTurn` (part_002 lines 793-831): relabel the board, check the
win, swap the player, reset the phase, append the move. -/
def completeTurn (s : GameState) (move : GameMove) : GameState :=
  let currentPlayer := s.currentPlayer
  let updatedBoard := updateMarks move
  let hasWon := checkWinCondition updatedBoard currentPlayer
  let nextPlayer := currentPlayer.other
  let s' : GameState :=
    { s with
      board := updatedBoard
      currentPlayer := nextPlayer
      gamePhase := .placing
      selectedLShape := none
      selectedCores := []
      selectedCore := none
      corePlayer := none
      moveHistory := s.moveHistory ++ [move]
      currentMoveIndex := s.currentMoveIndex + 1
      gameStatus := if hasWon then winOf currentPlayer else .playing }
  updateConvertibleStones (updateAvailableMoves s')

/-- `placeStone` (part_002 lines 261-323).  The only rejection conditions
are a finished game and history mode; the phase is not consulted. -/
def placeStone (s : GameState) (position : Position) : GameState :=
  if s.gameStatus ≠ .playing ∨ s.isHistoryMode then s
  else
    let stoneType := conduitOf s.currentPlayer
    let newBoard := setCellStone s.board position stoneType
    let move : GameMove :=
      { moveNumber := s.currentMoveIndex + 1, player := s.currentPlayer,
        moveType := .place, position := position, previousBoard := s.board,
        currentBoard := newBoard, resonanceInfo := none, lShapeInfo := none }
    let cores := detectCoresWithNewStone newBoard s.currentPlayer position
    if cores ≠ [] then
      let updatedBoard := updateMarks move
      { s with
        board := updatedBoard
        gamePhase := .resonating
        selectedCores := cores
        selectedCore := none
        corePlayer := some s.currentPlayer
        moveHistory := s.moveHistory ++ [move]
        currentMoveIndex := s.currentMoveIndex + 1 }
    else completeTurn s move

/-- The board computed inside `selectFocusPosition` (part_002 lines
397-411): convert the focal cell if it holds the core owner's conductor,
then activate the resonance. -/
def selectFocusResonance (board : Board) (corePlayer : Player)
    (selectedCore : Core) (position : Position) : ResonanceResult :=
  let cellType := (getCell board position).stoneType
  let newBoard :=
    if cellType = conduitOf corePlayer then
      setCellStone board position (keystoneOf corePlayer)
    else board
  activateResonance newBoard selectedCore position

/-- `undo` (part_002 lines 537-572).  The source indexes
`moveHistory[historyIndex - 1]` without a range check; a state violating
the store invariant `historyIndex ≤ moveHistory.length` would fault
there, which the total model maps to "no change". -/
def undo (s : GameState) : GameState :=
  if s.isHistoryMode then
    if s.historyIndex > 0 then
      match s.moveHistory.get? (s.historyIndex - 1) with
      | some targetMove =>
        { s with
          historyIndex := s.historyIndex - 1
          board := targetMove.previousBoard
          currentPlayer := targetMove.player.other
          gamePhase := .placing
          selectedLShape := none
          selectedCores := []
          selectedCore := none
          corePlayer := none }
      | none => s
    else s
  else
    if s.moveHistory.length > 0 then
      match s.moveHistory.get? (s.moveHistory.length - 1) with
      | some targetMove =>
        { s with
          isHistoryMode := true
          historyIndex := s.moveHistory.length - 1
          board := targetMove.previousBoard
          currentPlayer := targetMove.player.other
          gamePhase := .placing
          selectedLShape := none
          selectedCores := []
          selectedCore := none
          corePlayer := none }
      | none => s
    else s

/-- `redo` (part_002 lines 580-596).  In the source the guard compares
against `moveHistory.length - 1` over JS numbers; for `length = 0` the
bound is `-1` and the guard fails, exactly as the truncated `Nat`
subtraction below does. -/
def redo (s : GameState) : GameState :=
  if s.isHistoryMode ∧ s.historyIndex < s.moveHistory.length - 1 then
    match s.moveHistory.get? (s.historyIndex + 1) with
    | some targetMove =>
      { s with
        historyIndex := s.historyIndex + 1
        board := targetMove.currentBoard
        currentPlayer := targetMove.player.other
        gamePhase := .placing
        selectedLShape := none
        selectedCores := []
        selectedCore := none
        corePlayer := none }
    | none => s
  else s

/-- `confirmUndo` (part_002 lines 608-644): keep the first
`historyIndex + 1` moves, leave history mode, resume play.  The source
reads `moveHistory[historyIndex]` (for the next player) without a range
check; the out-of-range fault is mapped to "no change" as in `undo`. -/
def confirmUndo (s : GameState) : GameState :=
  if s.isHistoryMode then
    match s.moveHistory.get? s.historyIndex with
    | some targetMove =>
      let newHistory := s.moveHistory.take (s.historyIndex + 1)
      let nextPlayer := targetMove.player.other
      let s' : GameState :=
        { s with
          moveHistory := newHistory
          currentMoveIndex := s.historyIndex
          currentPlayer := nextPlayer
          isHistoryMode := false
          historyIndex := 0
          gamePhase := .placing
          selectedLShape := none
          selectedCores := []
          selectedCore := none
          corePlayer := none
          gameStatus := .playing }
      updateConvertibleStones (updateAvailableMoves s')
    | none => s
  else s

/-! ## Infrastructure lemmas -/

/-- Well-formed board: 17 rows of 17 cells, as `createEmptyBoard` builds
and all engine operations preserve. -/
def isBoardWF (b : Board) : Bool :=
  b.length == 17 && b.all (fun row => row.length == 17)

theorem listModify_getElem? {α : Type} (f : α → α) :
    ∀ (l : List α) (i j : Nat),
      (listModify f i l)[j]? = if j = i then l[j]?.map f else l[j]?
  | [], i, j => by cases i <;> cases j <;> simp [listModify]
  | x :: xs, 0, 0 => by simp [listModify]
  | x :: xs, 0, j + 1 => by simp [listModify]
  | x :: xs, i + 1, 0 => by simp [listModify]
  | x :: xs, i + 1, j + 1 => by
    simp only [listModify, List.getElem?_cons_succ]
    rw [listModify_getElem? f xs i j]
    by_cases h : j = i
    · rw [if_pos h, if_pos (by omega)]
    · rw [if_neg h, if_neg (by omega)]

theorem getCell_eq_getElem? (b : Board) (p : Position) :
    getCell b p = ((b[p.row.toNat]?.getD [])[p.col.toNat]?).getD defaultCell := by
  simp [getCell, List.getD_eq_getElem?_getD]

theorem getCell_modifyCellWith_stoneType (b : Board) (p q : Position)
    (f : BoardCell → BoardCell) (hf : ∀ c, (f c).stoneType = c.stoneType) :
    (getCell (modifyCellWith b p f) q).stoneType = (getCell b q).stoneType := by
  rw [getCell_eq_getElem?, getCell_eq_getElem?, modifyCellWith, listModify_getElem?]
  by_cases hr : q.row.toNat = p.row.toNat
  · rw [if_pos hr]
    cases hrow : b[q.row.toNat]? with
    | none => simp
    | some row =>
      simp only [Option.map_some', Option.getD_some]
      rw [listModify_getElem?]
      by_cases hc : q.col.toNat = p.col.toNat
      · rw [if_pos hc]
        cases hcell : row[q.col.toNat]? with
        | none => simp
        | some cell => simp [hf]
      · rw [if_neg hc]
  · rw [if_neg hr]

theorem toNat_inj_of_valid {p q : Position} (hp : isValidPosition p = true)
    (hq : isValidPosition q = true)
    (hr : q.row.toNat = p.row.toNat) (hc : q.col.toNat = p.col.toNat) : q = p := by
  simp only [isValidPosition, Bool.and_eq_true, decide_eq_true_eq] at hp hq
  have h1 : q.row = p.row := by omega
  have h2 : q.col = p.col := by omega
  cases p; cases q
  simp only [Position.mk.injEq]
  exact ⟨h1, h2⟩

theorem getCell_modifyCellWith_ne (b : Board) (p q : Position)
    (f : BoardCell → BoardCell) (hp : isValidPosition p = true)
    (hq : isValidPosition q = true) (hne : q ≠ p) :
    getCell (modifyCellWith b p f) q = getCell b q := by
  rw [getCell_eq_getElem?, getCell_eq_getElem?, modifyCellWith, listModify_getElem?]
  by_cases hr : q.row.toNat = p.row.toNat
  · rw [if_pos hr]
    cases hrow : b[q.row.toNat]? with
    | none => simp
    | some row =>
      simp only [Option.map_some', Option.getD_some]
      rw [listModify_getElem?]
      have hc : ¬q.col.toNat = p.col.toNat :=
        fun hc => hne (toNat_inj_of_valid hp hq hr hc)
      rw [if_neg hc]
  · rw [if_neg hr]

theorem getCell_setCellStone_ne (b : Board) (p q : Position) (st : StoneType)
    (hp : isValidPosition p = true) (hq : isValidPosition q = true) (hne : q ≠ p) :
    getCell (setCellStone b p st) q = getCell b q :=
  getCell_modifyCellWith_ne b p q _ hp hq hne

theorem isBoardWF_spec {b : Board} (h : isBoardWF b = true) :
    b.length = 17 ∧ ∀ row ∈ b, row.length = 17 := by
  simp only [isBoardWF, Bool.and_eq_true, beq_iff_eq, List.all_eq_true] at h
  exact ⟨h.1, h.2⟩

theorem getCell_modifyCellWith_self (b : Board) (p : Position)
    (f : BoardCell → BoardCell) (hWF : isBoardWF b = true)
    (hp : isValidPosition p = true) :
    getCell (modifyCellWith b p f) p = f (getCell b p) := by
  obtain ⟨hlen, hrows⟩ := isBoardWF_spec hWF
  simp only [isValidPosition, Bool.and_eq_true, decide_eq_true_eq] at hp
  have hrlt : p.row.toNat < b.length := by omega
  rw [getCell_eq_getElem?, getCell_eq_getElem?, modifyCellWith, listModify_getElem?,
    if_pos rfl]
  cases hrowq : b[p.row.toNat]? with
  | none => exact absurd (List.getElem?_eq_none_iff.mp hrowq) (by omega)
  | some row =>
    have hmem : row ∈ b := by
      obtain ⟨hlt, rfl⟩ := List.getElem?_eq_some.mp hrowq
      exact List.getElem_mem hlt
    have hlen2 : row.length = 17 := hrows row hmem
    have hclt : p.col.toNat < row.length := by omega
    simp only [Option.map_some', Option.getD_some]
    rw [listModify_getElem?, if_pos rfl]
    cases hcell : row[p.col.toNat]? with
    | none => exact absurd (List.getElem?_eq_none_iff.mp hcell) (by omega)
    | some cell => simp

theorem getCell_setCellStone_self (b : Board) (p : Position) (st : StoneType)
    (hWF : isBoardWF b = true) (hp : isValidPosition p = true) :
    getCell (setCellStone b p st) p = { getCell b p with stoneType := st } :=
  getCell_modifyCellWith_self b p _ hWF hp

theorem applyMark_stoneType (mt : MoveType) (info : MarkInfo) (c : BoardCell) :
    (applyMark mt info c).stoneType = c.stoneType := by
  unfold applyMark
  cases hm : c.mark with
  | none => rfl
  | some old =>
    dsimp only
    by_cases hmt : mt = .convert ∨ mt = .resonance
    · rw [if_pos hmt]
    · rw [if_neg hmt]

theorem markStep_stoneType (move : GameMove) (b : Board) (pos q : Position) :
    (getCell (markStep move b pos) q).stoneType = (getCell b q).stoneType := by
  unfold markStep
  dsimp only
  by_cases h1 : (getCell b pos).stoneType ≠ .empty
  · rw [if_pos h1]
    cases h2 : createMarkInfo move pos b with
    | none => rfl
    | some info =>
      exact getCell_modifyCellWith_stoneType b pos q _
        (applyMark_stoneType move.moveType info)
  · rw [if_neg h1]

theorem foldl_markStep_stoneType (move : GameMove) (q : Position) :
    ∀ (l : List Position) (b : Board),
      (getCell (l.foldl (markStep move) b) q).stoneType = (getCell b q).stoneType
  | [], b => rfl
  | x :: xs, b => by
    rw [List.foldl_cons, foldl_markStep_stoneType move q xs, markStep_stoneType]

/-- Relabelling never changes any stone: `updateNotation` only writes the
`notation` field of cells. -/
theorem updateMarks_stoneType (move : GameMove) (q : Position) :
    (getCell (updateMarks move) q).stoneType = (getCell move.currentBoard q).stoneType :=
  foldl_markStep_stoneType move q (affectedPositionsOf move) move.currentBoard

/-- The turn finalizer only rewrites `availableMoves` /
`convertibleStones` through its two UI refreshers; all other fields come
from the main `set` call. -/
theorem completeTurn_fields (s : GameState) (move : GameMove) :
    (completeTurn s move).board = updateMarks move ∧
    (completeTurn s move).currentPlayer = s.currentPlayer.other ∧
    (completeTurn s move).gamePhase = .placing ∧
    (completeTurn s move).gameStatus =
      (if checkWinCondition (updateMarks move) s.currentPlayer then
        winOf s.currentPlayer else .playing) ∧
    (completeTurn s move).moveHistory = s.moveHistory ++ [move] ∧
    (completeTurn s move).currentMoveIndex = s.currentMoveIndex + 1 ∧
    (completeTurn s move).isHistoryMode = s.isHistoryMode := by
  unfold completeTurn updateConvertibleStones updateAvailableMoves
  refine ⟨rfl, rfl, rfl, rfl, rfl, rfl, rfl⟩

/-- The move record built by `placeStone` for a placement at `position`. -/
def placeMoveOf (s : GameState) (position : Position) : GameMove :=
  { moveNumber := s.currentMoveIndex + 1, player := s.currentPlayer,
    moveType := .place, position := position, previousBoard := s.board,
    currentBoard := setCellStone s.board position (conduitOf s.currentPlayer),
    resonanceInfo := none, lShapeInfo := none }

theorem placeStone_board (s : GameState) (p : Position)
    (hstatus : s.gameStatus = .playing) (hmode : s.isHistoryMode = false) :
    (placeStone s p).board = updateMarks (placeMoveOf s p) := by
  unfold placeStone
  rw [if_neg (by simp [hstatus, hmode])]
  dsimp only
  by_cases hc :
      detectCoresWithNewStone (setCellStone s.board p (conduitOf s.currentPlayer))
        s.currentPlayer p ≠ []
  · rw [if_pos hc]
    rfl
  · rw [if_neg hc]
    exact (completeTurn_fields s (placeMoveOf s p)).1

/-- Shared by C3 and C10: under the only two rejection guards of
`placeStone`, the target cell ends up holding the acting player's
conductor, whatever it held before. -/
theorem placeStone_sets_conduit (s : GameState) (p : Position)
    (hWF : isBoardWF s.board = true) (hp : isValidPosition p = true)
    (hstatus : s.gameStatus = .playing) (hmode : s.isHistoryMode = false) :
    (getCell (placeStone s p).board p).stoneType = conduitOf s.currentPlayer := by
  rw [placeStone_board s p hstatus hmode, updateMarks_stoneType]
  show (getCell (setCellStone s.board p (conduitOf s.currentPlayer)) p).stoneType = _
  rw [getCell_setCellStone_self s.board p _ hWF hp]

/-! ## Concrete fixtures -/

/-- Place the same stone kind on a list of cells (test fixture builder). -/
def placeStonesAt (b : Board) (ps : List Position) (st : StoneType) : Board :=
  ps.foldl (fun bb p => setCellStone bb p st) b

/-- Six consecutive black keystones in row 8 and nothing else. -/
def bSixRun : Board :=
  placeStonesAt createEmptyBoard [⟨8, 2⟩, ⟨8, 3⟩, ⟨8, 4⟩, ⟨8, 5⟩, ⟨8, 6⟩, ⟨8, 7⟩]
    .blackKeystone

/-- Five consecutive black keystones in row 0 and nothing else. -/
def bFiveRun : Board :=
  placeStonesAt createEmptyBoard [⟨0, 0⟩, ⟨0, 1⟩, ⟨0, 2⟩, ⟨0, 3⟩, ⟨0, 4⟩] .blackKeystone

/-- A finished-turn move record whose resulting board wins for black. -/
def mvWin : GameMove :=
  { moveNumber := 1, player := .black, moveType := .place, position := ⟨0, 4⟩,
    previousBoard := createEmptyBoard, currentBoard := bFiveRun,
    resonanceInfo := none, lShapeInfo := none }

/-- A fresh store state moved into the `resonating` phase. -/
def s3cex : GameState := { initialState with gamePhase := .resonating }

/-- A finished game (black already won). -/
def s3fin : GameState := { initialState with gameStatus := .blackWin }

/-- A board with an occupied cell at (4, 4). -/
def s10occ : GameState :=
  { initialState with board := setCellStone createEmptyBoard ⟨4, 4⟩ .whiteKeystone }

/-- A placement move with no effect on the board (history fixture). -/
def trivMove : GameMove :=
  { moveNumber := 1, player := .black, moveType := .place, position := ⟨0, 0⟩,
    previousBoard := createEmptyBoard, currentBoard := createEmptyBoard,
    resonanceInfo := none, lShapeInfo := none }

/-- A store state sitting in history mode at cursor 0 over one move. -/
def s8hist : GameState :=
  { initialState with
    isHistoryMode := true
    historyIndex := 0
    moveHistory := [trivMove] }

/-! ## Claim C1 -/

/-- Claim C1: the claim says a board whose only black keystones are six
consecutive collinear keystones makes `checkWinCondition` return `false`
(runs of six or more do not count).  Evaluating the code at that input
returns `true`: the any-5-subset check accepts the embedded five-run of a
six-run, contradicting the repository's own rule documentation. -/
theorem checkWin_six_run_true :
    (getKeystoneStones bSixRun .black).length = 6 ∧
    checkWinCondition bSixRun .black = true := by decide

/-! ## Claim C2 -/

/-- Claim C2 counterexample: a finalization whose win check succeeds for
black still swaps the active player to white and resets the phase to
`placing`, contradicting the claim that the player is not swapped and the
phase does not return to `placing`. -/
theorem completeTurn_win_swaps_anyway :
    checkWinCondition (updateMarks mvWin) .black = true ∧
    initialState.currentPlayer = .black ∧
    (completeTurn initialState mvWin).gameStatus = .blackWin ∧
    (completeTurn initialState mvWin).currentPlayer = .white ∧
    (completeTurn initialState mvWin).gamePhase = .placing := by decide

/-- Claim C2 (amended): in every finalization `completeTurn` swaps the
active player and resets the phase to `placing`, whether or not the win
check succeeded; the game status alone records the win — it is set to the
acting player's win exactly when the win check succeeds, and to `playing`
otherwise. -/
theorem completeTurn_finalization (s : GameState) (move : GameMove) :
    (completeTurn s move).currentPlayer = s.currentPlayer.other ∧
    (completeTurn s move).gamePhase = .placing ∧
    ((completeTurn s move).gameStatus = winOf s.currentPlayer ↔
      checkWinCondition (updateMarks move) s.currentPlayer = true) ∧
    ((completeTurn s move).gameStatus = .playing ↔
      checkWinCondition (updateMarks move) s.currentPlayer = false) := by
  obtain ⟨_, hcp, hph, hst, _, _, _⟩ := completeTurn_fields s move
  have hne : winOf s.currentPlayer ≠ .playing := by
    cases s.currentPlayer <;> simp [winOf]
  refine ⟨hcp, hph, ?_, ?_⟩
  · rw [hst]
    cases hwin : checkWinCondition (updateMarks move) s.currentPlayer with
    | true => simp
    | false =>
      simp only [Bool.false_eq_true, if_false]
      constructor
      · intro h
        exact absurd h.symm hne
      · intro h
        cases h
  · rw [hst]
    cases hwin : checkWinCondition (updateMarks move) s.currentPlayer with
    | true =>
      simp only [if_true]
      constructor
      · intro h
        exact absurd h hne
      · intro h
        cases h
    | false => simp

/-! ## Claim C3 -/

/-- Claim C3 counterexample: in the `resonating` phase with the game
running and history mode off, the place-stone command is not a no-op —
the engine state changes (a stone is placed). -/
theorem placeStone_resonating_not_noop :
    s3cex.gamePhase = .resonating ∧ s3cex.gameStatus = .playing ∧
    s3cex.isHistoryMode = false ∧ placeStone s3cex ⟨3, 3⟩ ≠ s3cex := by decide

/-- Claim C3 (amended): `placeStone` never consults the phase.  It is a
silent no-op exactly when the game is over or history mode is active; in
the `resonating` or `selectingFocus` phase with the game running it still
places the current player's conductor at the target cell. -/
theorem placeStone_phase_not_checked :
    (∀ (s : GameState) (p : Position),
      (s.gameStatus ≠ .playing ∨ s.isHistoryMode = true) → placeStone s p = s) ∧
    (∀ (s : GameState) (p : Position),
      (s.gamePhase = .resonating ∨ s.gamePhase = .selectingFocus) →
      s.gameStatus = .playing → s.isHistoryMode = false →
      isBoardWF s.board = true → isValidPosition p = true →
      (getCell (placeStone s p).board p).stoneType = conduitOf s.currentPlayer) := by
  constructor
  · intro s p h
    unfold placeStone
    rw [if_pos]
    rcases h with h | h
    · exact Or.inl h
    · exact Or.inr h
  · intro s p _ hstatus hmode hWF hp
    exact placeStone_sets_conduit s p hWF hp hstatus hmode

theorem placeStone_phase_not_checked_witness :
    placeStone s3fin ⟨0, 0⟩ = s3fin ∧
    (getCell (placeStone s3cex ⟨3, 3⟩).board ⟨3, 3⟩).stoneType =
      conduitOf s3cex.currentPlayer :=
  ⟨placeStone_phase_not_checked.1 s3fin ⟨0, 0⟩ (Or.inl (by decide)),
   placeStone_phase_not_checked.2 s3cex ⟨3, 3⟩ (Or.inl (by decide)) (by decide)
     (by decide) (by decide) (by decide)⟩

/-! ## Claim C10 -/

/-- Claim C10: `placeStone` performs no emptiness check — for every
in-bounds position, with the game running and history mode off, the
target cell ends up holding the current player's conductor whatever it
held before (occupied cells are silently overwritten). -/
theorem placeStone_no_emptiness_check (s : GameState) (p : Position)
    (hWF : isBoardWF s.board = true) (hp : isValidPosition p = true)
    (hstatus : s.gameStatus = .playing) (hmode : s.isHistoryMode = false) :
    (getCell (placeStone s p).board p).stoneType = conduitOf s.currentPlayer :=
  placeStone_sets_conduit s p hWF hp hstatus hmode

theorem placeStone_no_emptiness_check_witness :
    (getCell s10occ.board ⟨4, 4⟩).stoneType = .whiteKeystone ∧
    (getCell (placeStone s10occ ⟨4, 4⟩).board ⟨4, 4⟩).stoneType =
      conduitOf s10occ.currentPlayer :=
  ⟨by decide,
   placeStone_no_emptiness_check s10occ ⟨4, 4⟩ (by decide) (by decide)
     (by decide) (by decide)⟩

/-! ## Claims C8 and C9 -/

theorem redo_of_not_historyMode (s : GameState) (h : s.isHistoryMode = false) :
    redo s = s := by
  unfold redo
  rw [if_neg]
  intro hc
  rw [h] at hc
  exact absurd hc.1 (by simp)

/-- Claim C8: confirming an undo at cursor K truncates the move history
to exactly its first K+1 moves, exits history mode, and afterwards
`redo` is a no-op. -/
theorem confirmUndo_truncates (s : GameState) (hmode : s.isHistoryMode = true)
    (hidx : s.historyIndex < s.moveHistory.length) :
    (confirmUndo s).moveHistory = s.moveHistory.take (s.historyIndex + 1) ∧
    (confirmUndo s).moveHistory.length = s.historyIndex + 1 ∧
    (confirmUndo s).isHistoryMode = false ∧
    redo (confirmUndo s) = confirmUndo s := by
  have hget : s.moveHistory.get? s.historyIndex =
      some (s.moveHistory.get ⟨s.historyIndex, hidx⟩) := List.get?_eq_get hidx
  unfold confirmUndo
  rw [if_pos hmode, hget]
  refine ⟨rfl, ?_, rfl, ?_⟩
  · show (s.moveHistory.take (s.historyIndex + 1)).length = s.historyIndex + 1
    rw [List.length_take]
    omega
  · exact redo_of_not_historyMode _ rfl

theorem confirmUndo_truncates_witness :
    (confirmUndo s8hist).moveHistory = s8hist.moveHistory.take (s8hist.historyIndex + 1) ∧
    (confirmUndo s8hist).moveHistory.length = s8hist.historyIndex + 1 ∧
    (confirmUndo s8hist).isHistoryMode = false ∧
    redo (confirmUndo s8hist) = confirmUndo s8hist :=
  confirmUndo_truncates s8hist (by decide) (by decide)

/-- Claim C9: undo with an empty history (in any state satisfying the
store invariant that the cursor is in range, hence 0 here), redo outside
history mode, and redo with the cursor at (or past) the last move are all
exact no-ops on the engine state. -/
theorem undo_redo_oob_noop :
    (∀ s : GameState, s.moveHistory = [] →
      (s.isHistoryMode = true → s.historyIndex = 0) → undo s = s) ∧
    (∀ s : GameState, s.isHistoryMode = false → redo s = s) ∧
    (∀ s : GameState, s.moveHistory.length - 1 ≤ s.historyIndex → redo s = s) := by
  refine ⟨?_, ?_, ?_⟩
  · intro s h1 h2
    unfold undo
    by_cases hm : s.isHistoryMode = true
    · rw [if_pos hm, if_neg]
      simp [h2 hm]
    · rw [if_neg hm, if_neg]
      simp [h1]
  · exact redo_of_not_historyMode
  · intro s hle
    unfold redo
    rw [if_neg]
    intro hc
    omega

/-! ## Core-detection characterization and Claim C5 -/

theorem coreAt_mem_detectCores (board : Board) (player : Player) (r c : Nat)
    (hr : r < 16) (hc : c < 16)
    (hvalid : isValidCore (coreAt board (r : Int) (c : Int)).stones player = true) :
    coreAt board (r : Int) (c : Int) ∈ detectCores board player := by
  unfold detectCores
  refine List.mem_flatMap.mpr ⟨r, List.mem_range.mpr ?_, ?_⟩
  · show r < 16
    omega
  · refine List.mem_filterMap.mpr ⟨c, List.mem_range.mpr ?_, ?_⟩
    · show c < 16
      omega
    · dsimp only
      rw [if_pos hvalid]

theorem mem_detectCores_elim (board : Board) (player : Player) (core : Core)
    (h : core ∈ detectCores board player) :
    ∃ (r c : Nat), r < 16 ∧ c < 16 ∧
      isValidCore (coreAt board (r : Int) (c : Int)).stones player = true ∧
      core = coreAt board (r : Int) (c : Int) := by
  unfold detectCores at h
  obtain ⟨r, hr, h2⟩ := List.mem_flatMap.mp h
  obtain ⟨c, hc, h3⟩ := List.mem_filterMap.mp h2
  have hr' : r < 16 := List.mem_range.mp hr
  have hc' : c < 16 := List.mem_range.mp hc
  dsimp only at h3
  by_cases hv : isValidCore (coreAt board (r : Int) (c : Int)).stones player = true
  · rw [if_pos hv] at h3
    injection h3 with h3
    exact ⟨r, c, hr', hc', hv, h3.symm⟩
  · rw [if_neg hv] at h3
    cases h3

/-- Claim C5: every core found by the new-stone-restricted scan is also
found by the full scan, and contains the new stone's position among its
four positions. -/
theorem detectCoresWithNewStone_subset (board : Board) (player : Player)
    (pos : Position) (core : Core)
    (h : core ∈ detectCoresWithNewStone board player pos) :
    core ∈ detectCores board player ∧ pos ∈ core.positions := by
  unfold detectCoresWithNewStone at h
  obtain ⟨sc, hmem, heq⟩ := List.mem_filterMap.mp h
  by_cases hb : 0 ≤ sc.1 ∧ sc.1 < 16 ∧ 0 ≤ sc.2 ∧ sc.2 < 16
  · rw [if_pos hb] at heq
    dsimp only at heq
    by_cases hv : isValidCore (coreAt board sc.1 sc.2).stones player = true
    · rw [if_pos hv] at heq
      injection heq with heq
      subst heq
      constructor
      · have h1 : ((sc.1.toNat : Nat) : Int) = sc.1 := Int.toNat_of_nonneg hb.1
        have h2 : ((sc.2.toNat : Nat) : Int) = sc.2 := Int.toNat_of_nonneg hb.2.2.1
        have hmain := coreAt_mem_detectCores board player sc.1.toNat sc.2.toNat
          (by omega) (by omega) (by rw [h1, h2]; exact hv)
        rw [h1, h2] at hmain
        exact hmain
      · simp only [List.mem_cons, List.not_mem_nil, or_false] at hmem
        rcases hmem with h | h | h | h <;> subst h <;> dsimp only [coreAt]
        · exact List.Mem.head _
        · have hcol : pos.col - 1 + 1 = pos.col := by ring
          rw [hcol]
          exact List.Mem.tail _ (List.Mem.head _)
        · have hrow : pos.row - 1 + 1 = pos.row := by ring
          rw [hrow]
          exact List.Mem.tail _ (List.Mem.tail _ (List.Mem.head _))
        · have hrow : pos.row - 1 + 1 = pos.row := by ring
          have hcol : pos.col - 1 + 1 = pos.col := by ring
          rw [hrow, hcol]
          exact List.Mem.tail _ (List.Mem.tail _ (List.Mem.tail _ (List.Mem.head _)))
    · rw [if_neg hv] at heq
      cases heq
  · rw [if_neg hb] at heq
    cases heq

/-- A black 2x2 core at the origin. -/
def b5core : Board :=
  placeStonesAt createEmptyBoard [⟨0, 0⟩, ⟨0, 1⟩, ⟨1, 0⟩, ⟨1, 1⟩] .blackConduit

def core5 : Core := coreAt b5core 0 0

theorem detectCoresWithNewStone_subset_witness :
    core5 ∈ detectCoresWithNewStone b5core .black ⟨1, 1⟩ ∧
    (core5 ∈ detectCores b5core .black ∧ (⟨1, 1⟩ : Position) ∈ core5.positions) :=
  ⟨by decide, detectCoresWithNewStone_subset b5core .black ⟨1, 1⟩ core5 (by decide)⟩

/-! ## Claim C6: bent-triple detection -/

theorem mem_pairsOf {α : Type} : ∀ (l : List α) (p : List α),
    p ∈ pairsOf l ↔ p.Sublist l ∧ p.length = 2
  | [], p => by
    simp only [pairsOf, List.not_mem_nil, false_iff, not_and]
    intro hs
    rw [List.sublist_nil.mp hs]
    simp
  | x :: xs, p => by
    simp only [pairsOf, List.mem_append, List.mem_map]
    constructor
    · rintro (⟨y, hy, rfl⟩ | hp)
      · exact ⟨List.Sublist.cons₂ x (List.singleton_sublist.mpr hy), rfl⟩
      · obtain ⟨hs, hl⟩ := (mem_pairsOf xs p).mp hp
        exact ⟨hs.cons x, hl⟩
    · rintro ⟨hs, hl⟩
      cases hs with
      | cons _ h2 => exact Or.inr ((mem_pairsOf xs p).mpr ⟨h2, hl⟩)
      | cons₂ _ h2 =>
        rename_i t
        have hlt : t.length = 1 := by simpa using hl
        obtain ⟨y, rfl⟩ := List.length_eq_one.mp hlt
        exact Or.inl ⟨y, List.singleton_sublist.mp h2, rfl⟩

theorem mem_triplesOf {α : Type} : ∀ (l : List α) (t : List α),
    t ∈ triplesOf l ↔ t.Sublist l ∧ t.length = 3
  | [], t => by
    simp only [triplesOf, List.not_mem_nil, false_iff, not_and]
    intro hs
    rw [List.sublist_nil.mp hs]
    simp
  | x :: xs, t => by
    simp only [triplesOf, List.mem_append, List.mem_map]
    constructor
    · rintro (⟨p, hp, rfl⟩ | ht)
      · obtain ⟨hs, hl⟩ := (mem_pairsOf xs p).mp hp
        exact ⟨List.Sublist.cons₂ x hs, by simp [hl]⟩
      · obtain ⟨hs, hl⟩ := (mem_triplesOf xs t).mp ht
        exact ⟨hs.cons x, hl⟩
    · rintro ⟨hs, hl⟩
      cases hs with
      | cons _ h2 => exact Or.inr ((mem_triplesOf xs t).mpr ⟨h2, hl⟩)
      | cons₂ _ h2 =>
        rename_i p
        have hlp : p.length = 2 := by simpa using hl
        exact Or.inl ⟨p, (mem_pairsOf xs p).mpr ⟨h2, hlp⟩, rfl⟩

/-- Spec-side notion of adjacency: Manhattan distance exactly 1. -/
def manhattanDist (p q : Position) : Nat :=
  (p.row - q.row).natAbs + (p.col - q.col).natAbs

/-- Spec-side qualification of a bent triple, following the spec's words:
a 3-element combination qualifies iff exactly two of its three pairwise
adjacency checks are true, adjacency being Manhattan distance exactly 1. -/
def exactlyTwoAdjacentSpec (s : List Position) : Bool :=
  match s with
  | [a, b, c] =>
    ((if manhattanDist a b = 1 then 1 else 0) +
     (if manhattanDist b c = 1 then 1 else 0) +
     (if manhattanDist a c = 1 then 1 else 0) : Nat) == 2
  | _ => false

theorem areAdjacent_iff_manhattan (p q : Position) :
    areAdjacent p q = true ↔ manhattanDist p q = 1 := by
  simp only [areAdjacent, manhattanDist, Bool.or_eq_true, Bool.and_eq_true, beq_iff_eq]
  omega

theorem isLShape_eq_spec (s : List Position) : isLShape s = exactlyTwoAdjacentSpec s := by
  match s with
  | [] => rfl
  | [a] => rfl
  | [a, b] => rfl
  | a :: b :: c :: d :: rest => rfl
  | [a, b, c] =>
    unfold isLShape exactlyTwoAdjacentSpec
    dsimp only
    have e1 : (if areAdjacent a b = true then (1 : Nat) else 0) =
        if manhattanDist a b = 1 then 1 else 0 := by
      by_cases h : areAdjacent a b = true
      · rw [if_pos h, if_pos ((areAdjacent_iff_manhattan a b).mp h)]
      · rw [if_neg h, if_neg (fun hm => h ((areAdjacent_iff_manhattan a b).mpr hm))]
    have e2 : (if areAdjacent b c = true then (1 : Nat) else 0) =
        if manhattanDist b c = 1 then 1 else 0 := by
      by_cases h : areAdjacent b c = true
      · rw [if_pos h, if_pos ((areAdjacent_iff_manhattan b c).mp h)]
      · rw [if_neg h, if_neg (fun hm => h ((areAdjacent_iff_manhattan b c).mpr hm))]
    have e3 : (if areAdjacent a c = true then (1 : Nat) else 0) =
        if manhattanDist a c = 1 then 1 else 0 := by
      by_cases h : areAdjacent a c = true
      · rw [if_pos h, if_pos ((areAdjacent_iff_manhattan a c).mp h)]
      · rw [if_neg h, if_neg (fun hm => h ((areAdjacent_iff_manhattan a c).mpr hm))]
    rw [e1, e2, e3]

/-- Claim C6: `detectLShapes` returns exactly the 3-element combinations
of the owner's conductor positions (keystones excluded, being absent from
`getConduitStones`) for which exactly two of the three pairwise adjacency
checks hold, where adjacency is Manhattan distance exactly 1. -/
theorem detectLShapes_characterization (board : Board) (player : Player)
    (s : List Position) :
    (∃ l ∈ detectLShapes board player, l.stones = s) ↔
    (s.Sublist (getConduitStones board player) ∧ s.length = 3 ∧
      exactlyTwoAdjacentSpec s = true) := by
  unfold detectLShapes
  constructor
  · rintro ⟨l, hl, rfl⟩
    obtain ⟨t, ht, rfl⟩ := List.mem_map.mp hl
    obtain ⟨htm, hlsh⟩ := List.mem_filter.mp ht
    obtain ⟨hsub, hlen⟩ := (mem_triplesOf _ _).mp htm
    exact ⟨hsub, hlen, by rw [← isLShape_eq_spec]; exact hlsh⟩
  · rintro ⟨hsub, hlen, hspec⟩
    refine ⟨⟨s, getLShapeType s⟩, ?_, rfl⟩
    apply List.mem_map.mpr
    refine ⟨s, ?_, rfl⟩
    apply List.mem_filter.mpr
    exact ⟨(mem_triplesOf _ _).mpr ⟨hsub, hlen⟩, by rw [isLShape_eq_spec]; exact hspec⟩

/-! ## Resonance-ray lemmas (Claims C4 and C7) -/

/-- The cell `k` steps from `start` along `vector`. -/
def offsetPos (start : Position) (k : Nat) (vector : Position) : Position :=
  ⟨start.row + k * vector.row, start.col + k * vector.col⟩

theorem offsetPos_one (s v : Position) : offsetPos s 1 v = stepPos s v := by
  unfold offsetPos stepPos
  simp

theorem offsetPos_succ (s v : Position) (k : Nat) :
    offsetPos (stepPos s v) k v = offsetPos s (k + 1) v := by
  unfold offsetPos stepPos
  simp only [Position.mk.injEq]
  constructor <;> push_cast <;> ring

theorem isSamePosition_iff (p q : Position) : isSamePosition p q = true ↔ p = q := by
  simp only [isSamePosition, Bool.and_eq_true, beq_iff_eq]
  constructor
  · intro h
    cases p; cases q
    simp only [Position.mk.injEq]
    exact h
  · intro h
    rw [h]
    exact ⟨rfl, rfl⟩

theorem isPositionInArray_iff (q : Position) (l : List Position) :
    isPositionInArray q l = true ↔ q ∈ l := by
  simp only [isPositionInArray, List.any_eq_true]
  constructor
  · rintro ⟨p, hp, hsame⟩
    rw [← (isSamePosition_iff p q).mp hsame]
    exact hp
  · intro h
    exact ⟨q, h, (isSamePosition_iff q q).mpr rfl⟩

/-- Shape of a propagation path: every recorded cell is `k` steps from
the start along the ray, in bounds, and outside the core. -/
theorem propagateLoop_mem (b : Board) (core : Core) (cp : Player) (vec : Position) :
    ∀ (fuel : Nat) (current p : Position), p ∈ propagateLoop b core cp vec fuel current →
      ∃ k, 1 ≤ k ∧ k ≤ fuel ∧ p = offsetPos current k vec ∧
        isValidPosition p = true ∧ isPositionInArray p core.positions = false
  | 0, current, p => by
    intro h
    simp [propagateLoop] at h
  | fuel + 1, current, p => by
    intro hmem
    unfold propagateLoop at hmem
    dsimp only at hmem
    by_cases hval : isValidPosition (stepPos current vec) = true
    · rw [if_neg (by simp [hval])] at hmem
      by_cases hin : isPositionInArray (stepPos current vec) core.positions = true
      · rw [if_pos hin] at hmem
        obtain ⟨k, hk1, hk2, hkeq, hkval, hkin⟩ :=
          propagateLoop_mem b core cp vec fuel (stepPos current vec) p hmem
        refine ⟨k + 1, by omega, by omega, ?_, hkval, hkin⟩
        rw [hkeq, offsetPos_succ]
      · rw [if_neg hin] at hmem
        have hinf : isPositionInArray (stepPos current vec) core.positions = false := by
          revert hin
          cases isPositionInArray (stepPos current vec) core.positions <;> simp
        by_cases hcond : (getCell b (stepPos current vec)).stoneType = conduitOf cp
        · rw [if_pos hcond] at hmem
          rw [List.mem_singleton] at hmem
          subst hmem
          exact ⟨1, le_refl 1, by omega, (offsetPos_one current vec).symm, hval, hinf⟩
        · rw [if_neg hcond] at hmem
          by_cases hemp : (getCell b (stepPos current vec)).stoneType ≠ .empty
          · rw [if_pos hemp] at hmem
            cases hmem
          · rw [if_neg hemp] at hmem
            cases hmem with
            | head =>
              exact ⟨1, le_refl 1, by omega, (offsetPos_one current vec).symm, hval, hinf⟩
            | tail _ htl =>
              obtain ⟨k, hk1, hk2, hkeq, hkval, hkin⟩ :=
                propagateLoop_mem b core cp vec fuel (stepPos current vec) p htl
              refine ⟨k + 1, by omega, by omega, ?_, hkval, hkin⟩
              rw [hkeq, offsetPos_succ]
    · rw [if_pos (by simp [hval])] at hmem
      cases hmem

/-- A ray whose very first cell is in bounds, outside the core, and holds
a stone that is neither the core owner's conductor nor empty, is cut off
immediately: the path is empty. -/
theorem propagateLoop_blocked (b : Board) (core : Core) (cp : Player) (vec : Position)
    (fuel : Nat) (current : Position)
    (hval : isValidPosition (stepPos current vec) = true)
    (hnotin : isPositionInArray (stepPos current vec) core.positions = false)
    (hnc : (getCell b (stepPos current vec)).stoneType ≠ conduitOf cp)
    (hne : (getCell b (stepPos current vec)).stoneType ≠ .empty) :
    propagateLoop b core cp vec (fuel + 1) current = [] := by
  unfold propagateLoop
  dsimp only
  rw [if_neg (by simp [hval]), if_neg (by simp [hnotin]), if_neg hnc, if_pos hne]

/-- `convertPath` touches only the cells recorded in the path. -/
theorem convertPath_getCell_not_mem (cp : Player) :
    ∀ (path : List Position) (b : Board) (q : Position),
      isValidPosition q = true →
      (∀ p ∈ path, isValidPosition p = true) →
      q ∉ path →
      getCell (convertPath b cp path) q = getCell b q
  | [], b, q => fun _ _ _ => rfl
  | p :: rest, b, q => by
    intro hq hall hnm
    have hstep : convertPath b cp (p :: rest) =
        convertPath (if (getCell b p).stoneType = conduitOf cp then
          setCellStone b p (keystoneOf cp) else b) cp rest := rfl
    rw [hstep]
    rw [convertPath_getCell_not_mem cp rest _ q hq
      (fun x hx => hall x (List.Mem.tail p hx))
      (fun hx => hnm (List.Mem.tail p hx))]
    by_cases hcond : (getCell b p).stoneType = conduitOf cp
    · rw [if_pos hcond]
      exact getCell_setCellStone_ne b p q _ (hall p (List.Mem.head rest)) hq
        (fun he => hnm (he ▸ List.Mem.head rest))
    · rw [if_neg hcond]

theorem detected_core_positions_valid (board : Board) (owner : Player) (core : Core)
    (h : core ∈ detectCores board owner) :
    ∀ q ∈ core.positions, isValidPosition q = true := by
  obtain ⟨r, c, hr, hc, _, rfl⟩ := mem_detectCores_elim board owner core h
  intro q hq
  dsimp only [coreAt] at hq
  simp only [List.mem_cons, List.not_mem_nil, or_false] at hq
  rcases hq with rfl | rfl | rfl | rfl <;>
    · simp only [isValidPosition, Bool.and_eq_true, decide_eq_true_eq]
      omega

theorem detected_core_cell (board : Board) (owner : Player) (core : Core)
    (h : core ∈ detectCores board owner) :
    ∀ q ∈ core.positions,
      (getCell board q).stoneType = conduitOf owner ∨
      (getCell board q).stoneType = keystoneOf owner := by
  obtain ⟨r, c, hr, hc, hv, rfl⟩ := mem_detectCores_elim board owner core h
  intro q hq
  dsimp only [coreAt] at hq hv ⊢
  unfold isValidCore at hv
  rw [List.all_eq_true] at hv
  simp only [List.mem_cons, List.not_mem_nil, or_false] at hq
  rcases hq with rfl | rfl | rfl | rfl
  · simpa using hv _ (List.Mem.head _)
  · simpa using hv _ (List.Mem.tail _ (List.Mem.head _))
  · simpa using hv _ (List.Mem.tail _ (List.Mem.tail _ (List.Mem.head _)))
  · simpa using hv _ (List.Mem.tail _ (List.Mem.tail _ (List.Mem.tail _ (List.Mem.head _))))

theorem corePlayerOf_detected (board : Board) (owner : Player) (core : Core)
    (h : core ∈ detectCores board owner) : corePlayerOf core = owner := by
  obtain ⟨r, c, hr, hc, hv, rfl⟩ := mem_detectCores_elim board owner core h
  unfold coreAt at hv
  unfold corePlayerOf coreAt
  dsimp only at hv ⊢
  unfold isValidCore at hv
  rw [List.all_eq_true] at hv
  have h0 := hv _ (List.Mem.head _)
  simp only [Bool.or_eq_true, beq_iff_eq] at h0
  rw [List.headD_cons]
  cases owner <;> rcases h0 with h0 | h0 <;>
    simp [h0, conduitOf, keystoneOf, stoneIncludesBlack]

/-- A resonance activation never changes any cell of the core itself:
every propagation path avoids `core.positions`. -/
theorem activateResonance_core_cell_unchanged (b : Board) (core : Core)
    (focus q : Position) (hq : isValidPosition q = true)
    (hin : isPositionInArray q core.positions = true) :
    getCell (activateResonance b core focus).newBoard q = getCell b q := by
  have key : ∀ (bb : Board) (d : Direction),
      getCell (convertPath bb (corePlayerOf core)
        (propagateResonance bb focus d core (corePlayerOf core))) q = getCell bb q := by
    intro bb d
    apply convertPath_getCell_not_mem _ _ _ _ hq
    · intro p hp
      obtain ⟨_, _, _, _, hv, _⟩ :=
        propagateLoop_mem bb core (corePlayerOf core) (directionVector d) 5 focus p hp
      exact hv
    · intro hmem
      obtain ⟨_, _, _, _, _, hnotin⟩ :=
        propagateLoop_mem bb core (corePlayerOf core) (directionVector d) 5 focus q hmem
      rw [hin] at hnotin
      cases hnotin
  show getCell (activateResonance b core focus).newBoard q = getCell b q
  unfold activateResonance
  dsimp only
  rw [key, key, key, key]

/-! ## Claim C4 -/

/-- Claim C4 counterexample: `activateResonance` itself leaves a focal
cell holding the owner's conductor untouched — it does not convert it.
(The conversion the claim describes happens in `selectFocusPosition`,
before `activateResonance` is called.) -/
theorem activateResonance_focal_not_converted :
    core5 ∈ detectCores b5core .black ∧
    (⟨0, 0⟩ : Position) ∈ core5.positions ∧
    (getCell b5core ⟨0, 0⟩).stoneType = conduitOf .black ∧
    (getCell (activateResonance b5core core5 ⟨0, 0⟩).newBoard ⟨0, 0⟩).stoneType =
      conduitOf .black ∧
    (getCell (activateResonance b5core core5 ⟨0, 0⟩).newBoard ⟨0, 0⟩).stoneType ≠
      keystoneOf .black := by decide

/-- Claim C4 (amended): the focal-cell conversion is performed by
`selectFocusPosition` before it calls `activateResonance`; the combined
step (modelled by `selectFocusResonance`) converts a focal cell holding
the owner's conductor into the owner's keystone, and leaves an
already-keystone focal cell exactly as it is, while `activateResonance`
alone never touches the focal cell. -/
theorem selectFocus_focal_conversion (board : Board) (core : Core) (owner : Player)
    (pos : Position) (hWF : isBoardWF board = true)
    (hcore : core ∈ detectCores board owner)
    (hfocus : pos ∈ core.positions) :
    ((getCell board pos).stoneType = conduitOf owner →
      (getCell (selectFocusResonance board owner core pos).newBoard pos).stoneType =
        keystoneOf owner) ∧
    ((getCell board pos).stoneType = keystoneOf owner →
      getCell (selectFocusResonance board owner core pos).newBoard pos =
        getCell board pos) ∧
    getCell (activateResonance board core pos).newBoard pos = getCell board pos := by
  have hval : isValidPosition pos = true :=
    detected_core_positions_valid board owner core hcore pos hfocus
  have hin : isPositionInArray pos core.positions = true :=
    (isPositionInArray_iff pos core.positions).mpr hfocus
  refine ⟨?_, ?_, activateResonance_core_cell_unchanged board core pos pos hval hin⟩
  · intro hcond
    unfold selectFocusResonance
    dsimp only
    rw [if_pos hcond]
    rw [activateResonance_core_cell_unchanged _ core pos pos hval hin]
    rw [getCell_setCellStone_self board pos _ hWF hval]
  · intro hcond
    unfold selectFocusResonance
    dsimp only
    have hne : (getCell board pos).stoneType ≠ conduitOf owner := by
      rw [hcond]
      cases owner <;> simp [conduitOf, keystoneOf]
    rw [if_neg hne]
    exact activateResonance_core_cell_unchanged board core pos pos hval hin

theorem selectFocus_focal_conversion_witness :
    (getCell b5core ⟨0, 0⟩).stoneType = conduitOf .black ∧
    (getCell (selectFocusResonance b5core .black core5 ⟨0, 0⟩).newBoard ⟨0, 0⟩).stoneType =
      keystoneOf .black :=
  ⟨by decide,
   (selectFocus_focal_conversion b5core core5 .black ⟨0, 0⟩ (by decide) (by decide)
     (by decide)).1 (by decide)⟩

/-! ## Claim C7 -/

/-- Index of each direction in the `resonancePaths` array (the source's
`['up','down','left','right']` order). -/
def dirIdx : Direction → Nat
  | .up => 0
  | .down => 1
  | .left => 2
  | .right => 3

/-- Distinct rays from a common origin never meet again. -/
theorem offset_ray_inj (s : Position) (d e : Direction) (i j : Nat)
    (hi : 1 ≤ i) (hj : 1 ≤ j)
    (h : offsetPos s i (directionVector d) = offsetPos s j (directionVector e)) :
    d = e := by
  cases d <;> cases e <;> first
    | rfl
    | (exfalso
       unfold offsetPos directionVector at h
       simp only [Position.mk.injEq] at h
       omega)

theorem convertPath_nil (b : Board) (cp : Player) : convertPath b cp [] = b := rfl

/-- A conversion stage for direction `e` cannot change any cell strictly
on the ray of a different direction `d`. -/
theorem stage_preserves_ray (bb : Board) (core : Core) (cp : Player) (focus : Position)
    (d e : Direction) (hne : e ≠ d) (k : Nat) (hk : 1 ≤ k)
    (hkval : isValidPosition (offsetPos focus k (directionVector d)) = true) :
    getCell (convertPath bb cp (propagateResonance bb focus e core cp))
      (offsetPos focus k (directionVector d)) =
    getCell bb (offsetPos focus k (directionVector d)) := by
  apply convertPath_getCell_not_mem _ _ _ _ hkval
  · intro p hp
    obtain ⟨_, _, _, _, hv, _⟩ :=
      propagateLoop_mem bb core cp (directionVector e) 5 focus p hp
    exact hv
  · intro hmem
    obtain ⟨j, hj1, _, heq, _, _⟩ :=
      propagateLoop_mem bb core cp (directionVector e) 5 focus _ hmem
    exact hne (offset_ray_inj focus d e k j hk hj1 heq).symm

/-- Claim C7: if the cell one step from the focal position in direction
`d` is on the board and holds an opponent stone, then the path returned
for `d` is empty and no (in-bounds) cell along that direction changes
state in the activation. -/
theorem resonance_opponent_blocks (board : Board) (core : Core) (owner : Player)
    (focus : Position) (d : Direction)
    (hcore : core ∈ detectCores board owner)
    (_hfocus : focus ∈ core.positions)
    (hval : isValidPosition (offsetPos focus 1 (directionVector d)) = true)
    (hopp : (getCell board (offsetPos focus 1 (directionVector d))).stoneType =
        conduitOf owner.other ∨
      (getCell board (offsetPos focus 1 (directionVector d))).stoneType =
        keystoneOf owner.other) :
    (activateResonance board core focus).resonancePaths.get? (dirIdx d) = some [] ∧
    (∀ k : Nat, 1 ≤ k → k ≤ 5 →
      isValidPosition (offsetPos focus k (directionVector d)) = true →
      getCell (activateResonance board core focus).newBoard
          (offsetPos focus k (directionVector d)) =
        getCell board (offsetPos focus k (directionVector d))) := by
  have hcp : corePlayerOf core = owner := corePlayerOf_detected board owner core hcore
  have hnotin :
      isPositionInArray (offsetPos focus 1 (directionVector d)) core.positions = false := by
    by_cases h : isPositionInArray (offsetPos focus 1 (directionVector d)) core.positions = true
    · exfalso
      have hcell := detected_core_cell board owner core hcore _
        ((isPositionInArray_iff _ _).mp h)
      rcases hopp with ho | ho <;> rcases hcell with hc | hc <;> rw [ho] at hc <;>
        (cases owner <;> simp [conduitOf, keystoneOf, Player.other] at hc)
    · revert h
      cases isPositionInArray (offsetPos focus 1 (directionVector d)) core.positions <;> simp
  have hopp_ne_conduit :
      (getCell board (offsetPos focus 1 (directionVector d))).stoneType ≠ conduitOf owner := by
    rcases hopp with ho | ho <;> rw [ho] <;>
      (cases owner <;> simp [conduitOf, keystoneOf, Player.other])
  have hopp_ne_empty :
      (getCell board (offsetPos focus 1 (directionVector d))).stoneType ≠ .empty := by
    rcases hopp with ho | ho <;> rw [ho] <;>
      (cases owner <;> simp [conduitOf, keystoneOf, Player.other])
  have hblocked : ∀ bb : Board,
      getCell bb (offsetPos focus 1 (directionVector d)) =
        getCell board (offsetPos focus 1 (directionVector d)) →
      propagateResonance bb focus d core owner = [] := by
    intro bb hbb
    show propagateLoop bb core owner (directionVector d) 5 focus = []
    have h1 : isValidPosition (stepPos focus (directionVector d)) = true := by
      rw [← offsetPos_one]
      exact hval
    have h2 : isPositionInArray (stepPos focus (directionVector d)) core.positions = false := by
      rw [← offsetPos_one]
      exact hnotin
    have h3 : (getCell bb (stepPos focus (directionVector d))).stoneType ≠ conduitOf owner := by
      rw [← offsetPos_one, hbb]
      exact hopp_ne_conduit
    have h4 : (getCell bb (stepPos focus (directionVector d))).stoneType ≠ .empty := by
      rw [← offsetPos_one, hbb]
      exact hopp_ne_empty
    exact propagateLoop_blocked bb core owner (directionVector d) 4 focus h1 h2 h3 h4
  unfold activateResonance
  dsimp only
  rw [hcp]
  cases d with
  | up =>
    rw [hblocked board rfl, convertPath_nil]
    constructor
    · rfl
    · intro k hk1 _ hkval
      rw [stage_preserves_ray _ core owner focus .up .right (by simp) k hk1 hkval,
        stage_preserves_ray _ core owner focus .up .left (by simp) k hk1 hkval,
        stage_preserves_ray _ core owner focus .up .down (by simp) k hk1 hkval]
  | down =>
    set B1 := convertPath board owner
      (propagateResonance board focus Direction.up core owner) with hB1def
    have hq1B1 : getCell B1 (offsetPos focus 1 (directionVector Direction.down)) =
        getCell board (offsetPos focus 1 (directionVector Direction.down)) := by
      rw [hB1def, stage_preserves_ray board core owner focus .down .up (by simp) 1
        (le_refl 1) hval]
    rw [hblocked B1 hq1B1, convertPath_nil]
    constructor
    · rfl
    · intro k hk1 _ hkval
      rw [stage_preserves_ray _ core owner focus .down .right (by simp) k hk1 hkval,
        stage_preserves_ray _ core owner focus .down .left (by simp) k hk1 hkval,
        hB1def,
        stage_preserves_ray board core owner focus .down .up (by simp) k hk1 hkval]
  | left =>
    set B1 := convertPath board owner
      (propagateResonance board focus Direction.up core owner) with hB1def
    set B2 := convertPath B1 owner
      (propagateResonance B1 focus Direction.down core owner) with hB2def
    have hq1B2 : getCell B2 (offsetPos focus 1 (directionVector Direction.left)) =
        getCell board (offsetPos focus 1 (directionVector Direction.left)) := by
      rw [hB2def, stage_preserves_ray B1 core owner focus .left .down (by simp) 1
        (le_refl 1) hval, hB1def,
        stage_preserves_ray board core owner focus .left .up (by simp) 1 (le_refl 1) hval]
    rw [hblocked B2 hq1B2, convertPath_nil]
    constructor
    · rfl
    · intro k hk1 _ hkval
      rw [stage_preserves_ray B2 core owner focus .left .right (by simp) k hk1 hkval,
        hB2def,
        stage_preserves_ray B1 core owner focus .left .down (by simp) k hk1 hkval,
        hB1def,
        stage_preserves_ray board core owner focus .left .up (by simp) k hk1 hkval]
  | right =>
    set B1 := convertPath board owner
      (propagateResonance board focus Direction.up core owner) with hB1def
    set B2 := convertPath B1 owner
      (propagateResonance B1 focus Direction.down core owner) with hB2def
    set B3 := convertPath B2 owner
      (propagateResonance B2 focus Direction.left core owner) with hB3def
    have hq1B3 : getCell B3 (offsetPos focus 1 (directionVector Direction.right)) =
        getCell board (offsetPos focus 1 (directionVector Direction.right)) := by
      rw [hB3def, stage_preserves_ray B2 core owner focus .right .left (by simp) 1
        (le_refl 1) hval, hB2def,
        stage_preserves_ray B1 core owner focus .right .down (by simp) 1 (le_refl 1) hval,
        hB1def,
        stage_preserves_ray board core owner focus .right .up (by simp) 1 (le_refl 1) hval]
    rw [hblocked B3 hq1B3, convertPath_nil]
    constructor
    · rfl
    · intro k hk1 _ hkval
      rw [hB3def,
        stage_preserves_ray B2 core owner focus .right .left (by simp) k hk1 hkval,
        hB2def,
        stage_preserves_ray B1 core owner focus .right .down (by simp) k hk1 hkval,
        hB1def,
        stage_preserves_ray board core owner focus .right .up (by simp) k hk1 hkval]

/-- A black core with a white conductor adjacent to the (6, 6) corner. -/
def b7 : Board :=
  setCellStone
    (placeStonesAt createEmptyBoard [⟨5, 5⟩, ⟨5, 6⟩, ⟨6, 5⟩, ⟨6, 6⟩] .blackConduit)
    ⟨6, 7⟩ .whiteConduit

def core7 : Core := coreAt b7 5 5

theorem resonance_opponent_blocks_witness :
    core7 ∈ detectCores b7 .black ∧
    (activateResonance b7 core7 ⟨6, 6⟩).resonancePaths.get? (dirIdx .right) = some [] ∧
    getCell (activateResonance b7 core7 ⟨6, 6⟩).newBoard
        (offsetPos ⟨6, 6⟩ 1 (directionVector .right)) =
      getCell b7 (offsetPos ⟨6, 6⟩ 1 (directionVector .right)) :=
  ⟨by decide,
   (resonance_opponent_blocks b7 core7 .black ⟨6, 6⟩ .right (by decide) (by decide)
     (by decide) (Or.inl (by decide))).1,
   (resonance_opponent_blocks b7 core7 .black ⟨6, 6⟩ .right (by decide) (by decide)
     (by decide) (Or.inl (by decide))).2 1 (by decide) (by decide) (by decide)⟩

theorem undo_redo_oob_noop_witness :
    undo initialState = initialState ∧ redo initialState = initialState ∧
    redo s8hist = s8hist :=
  ⟨undo_redo_oob_noop.1 initialState rfl (fun _ => rfl),
   undo_redo_oob_noop.2.1 initialState rfl,
   undo_redo_oob_noop.2.2 s8hist (by decide)⟩
